import Mathlib

/-!
# Verification of the multi-source file index reconciliation engine

Shallow embedding of `src/utils/list.ts` (the `list` function and its local
helpers).  Pure helpers become Lean functions; the network is modelled as
response oracles; JavaScript truthiness, `||` defaulting and property access
on possibly-absent fields are modelled explicitly on `Option String`.
-/

namespace KeypoList

/-- Model of `String.prototype.toLowerCase`: character-wise lowercasing
(as in JavaScript for the ASCII identifiers the engine handles), defined
structurally over the character list. -/
def jsToLower (s : String) : String :=
  String.mk (s.data.map Char.toLower)

/-- JavaScript truthiness of a possibly-undefined string value:
`undefined` and the empty string are falsy, every other string is truthy. -/
def jsTruthy : Option String → Bool
  | none => false
  | some s => s ≠ ""

/-- Models the JavaScript expression `a || b` on possibly-undefined string
values: returns `a` when it is truthy, otherwise `b`. -/
def jsOr (a b : Option String) : Option String :=
  match a with
  | some s => if s = "" then b else some s
  | none => b

/-- Models `a || alt` where `alt` is a plain (always-defined) string, as in
the `|| ''` fallback used for the `cid` field. -/
def truthyOr (a : Option String) (alt : String) : String :=
  match a with
  | some s => if s = "" then alt else s
  | none => alt

/-- Models `x || d` on an optional number (`0` is falsy in JavaScript), as in
`filter?.pagination?.pageSize || 100` (list.ts line 23). -/
def jsOrNum (o : Option Nat) (d : Nat) : Nat :=
  match o with
  | some n => if n = 0 then d else n
  | none => d

/-- Models `filter?.pagination?.maxPages || Infinity` (list.ts line 24).
`none` plays the role of `Infinity` (no page bound). -/
def jsOrInfinity (o : Option Nat) : Option Nat :=
  match o with
  | some n => if n = 0 then none else some n
  | none => none

/-- Models `page < maxPages` where `maxPages` may be `Infinity` (`none`). -/
def ltMax (page : Nat) : Option Nat → Bool
  | none => true
  | some m => page < m

/-- The parsed shape of a record's `fileMetadata` JSON blob, restricted to
the fields the engine reads (list.ts lines 136-169).  Absent JSON fields are
`none`.  `fsiPieceCID`/`fsiPieceCid` stand for
`fileMetadata.filecoinStorageInfo?.pieceCID` / `...?.pieceCid` (the optional
chaining is absorbed into the option).  `stringified` carries the value of
`JSON.stringify(fileMetadata)`, an uninterpreted derived string. -/
structure FileMetadata where
  name : Option String
  type : Option String
  mimeType : Option String
  subtype : Option String
  accessType : Option String
  fsiPieceCID : Option String
  fsiPieceCid : Option String
  pieceCID : Option String
  pieceCid : Option String
  encryptedDataIpfsHash : Option String
  stringified : String
  deriving DecidableEq, Repr

/-- The object literal returned by `extractMetadata` (list.ts lines 143-151). -/
structure DataMetadata where
  name : Option String
  type : Option String
  mimeType : Option String
  subtype : Option String
  pieceCid : Option String
  accessType : Option String
  userMetaData : String
  deriving DecidableEq, Repr

/-- Models `extractMetadata` (list.ts lines 136-152): the locator is
`filecoinStorageInfo?.pieceCID || filecoinStorageInfo?.pieceCid || pieceCID || pieceCid`. -/
def extractMetadata (fileMetadata : FileMetadata) : DataMetadata :=
  let pieceCid := jsOr fileMetadata.fsiPieceCID
    (jsOr fileMetadata.fsiPieceCid
      (jsOr fileMetadata.pieceCID fileMetadata.pieceCid))
  { name := fileMetadata.name
    type := fileMetadata.type
    mimeType := fileMetadata.mimeType
    subtype := fileMetadata.subtype
    pieceCid := pieceCid
    accessType := fileMetadata.accessType
    userMetaData := fileMetadata.stringified }

/-- Models `hasFilecoinStorage` (list.ts lines 155-158):
`!!(fileMetadata.filecoinStorageInfo?.pieceCID || fileMetadata.filecoinStorageInfo?.pieceCid)`. -/
def hasFilecoinStorage (fileMetadata : FileMetadata) : Bool :=
  jsTruthy fileMetadata.fsiPieceCID || jsTruthy fileMetadata.fsiPieceCid

/-- Models `hasRequiredMetadata` (list.ts lines 161-169): requires the nested
storage locator and rejects blobs carrying `encryptedData?.ipfsHash`. -/
def hasRequiredMetadata (fileMetadata : FileMetadata) : Bool :=
  if !hasFilecoinStorage fileMetadata then false
  else if jsTruthy fileMetadata.encryptedDataIpfsHash then false
  else true

/-- Dynamic property access `file.dataMetadata[field]` on the object literal
returned by `extractMetadata`; any other key is `undefined`. -/
def DataMetadata.get (dm : DataMetadata) (field : String) : Option String :=
  if field = "name" then dm.name
  else if field = "type" then dm.type
  else if field = "mimeType" then dm.mimeType
  else if field = "subtype" then dm.subtype
  else if field = "pieceCid" then dm.pieceCid
  else if field = "accessType" then dm.accessType
  else if field = "userMetaData" then some dm.userMetaData
  else none

/-- The `filterBy.operator` values (list.ts line 9); `equals` is also the
`default` branch of the switch. -/
inductive FilterOp where
  | equals
  | contains
  | startsWith
  | endsWith
  deriving DecidableEq, Repr

/-- Models `filter.filterBy` (list.ts lines 6-10); the value is modelled already
stringified (the source applies `String(...)` before comparing). -/
structure FilterBy where
  field : String
  value : String
  operator : Option FilterOp
  deriving DecidableEq, Repr

/-- Models the `direction` option, `asc` or `desc` (list.ts line 13). -/
inductive SortDirection where
  | asc
  | desc
  deriving DecidableEq, Repr

/-- Models `filter.sortBy` (list.ts lines 11-14). -/
structure SortBy where
  field : String
  direction : Option SortDirection
  deriving DecidableEq, Repr

/-- Models `filter.pagination` (list.ts lines 15-18). -/
structure Pagination where
  pageSize : Option Nat
  maxPages : Option Nat
  deriving DecidableEq, Repr

/-- The optional `filter` argument of `list` (list.ts lines 5-19). -/
structure Filter where
  filterBy : Option FilterBy
  sortBy : Option SortBy
  pagination : Option Pagination
  deriving DecidableEq, Repr

/-- Substring test modelling `String.prototype.includes`. -/
def strIncludes (s sub : String) : Bool :=
  decide (sub.data <:+: s.data)

/-- One raw record of either record kind (list.ts lines 74-85).  The
`fileMetadata` field carries the outcome that `JSON.parse` would produce on
the record's metadata blob: `.error` when the blob is unparseable (in the
source, `JSON.parse` throws there), `.ok` with the parsed shape otherwise. -/
structure RawFile where
  fileIdentifier : String
  fileMetadata : Except String FileMetadata
  fileContractAddress : String
  fileOwner : String
  deriving Repr

/-- The per-file object stored into `allFiles` (list.ts lines 213-220). -/
structure FileData where
  cid : String
  dataContractAddress : String
  dataIdentifier : String
  dataMetadata : DataMetadata
  owner : String
  isAccessMinted : Bool
  deriving DecidableEq, Repr

/-- Models `matchesFilter` (list.ts lines 172-189). -/
def matchesFilter (filterBy : Option FilterBy) (file : FileData) : Bool :=
  match filterBy with
  | none => true
  | some fb =>
    match file.dataMetadata.get fb.field with
    | none => false
    | some fieldValue =>
      match fb.operator with
      | some FilterOp.contains =>
          strIncludes (jsToLower fieldValue) (jsToLower fb.value)
      | some FilterOp.startsWith =>
          (jsToLower fieldValue).startsWith (jsToLower fb.value)
      | some FilterOp.endsWith =>
          (jsToLower fieldValue).endsWith (jsToLower fb.value)
      | _ => jsToLower fieldValue = jsToLower fb.value

/-- The object literal built for an accepted record (list.ts lines 213-220,
237-244, 261-268, 285-292).  `mintedStream` is true in the two
access-minted passes, where the source writes `isAccessMinted: true`;
in the deployed passes it consults the access-minted identifier set. -/
def mkFileData (accessIds : List String) (mintedStream : Bool)
    (f : RawFile) (fileMetadata : FileMetadata) : FileData :=
  { cid := truthyOr fileMetadata.fsiPieceCID (truthyOr fileMetadata.fsiPieceCid "")
    dataContractAddress := f.fileContractAddress
    dataIdentifier := jsToLower f.fileIdentifier
    dataMetadata := extractMetadata fileMetadata
    owner := f.fileOwner
    isAccessMinted := if mintedStream then true else accessIds.contains (jsToLower f.fileIdentifier) }

/-- One merge pass over one record list (the four loop blocks at list.ts
lines 207-228, 231-252, 255-276 and 279-300; the blocks are textually
identical except for the `isAccessMinted` expression, captured by
`mintedStream`).  `acc` is the `allFiles` accumulator in insertion order;
membership of a key in `acc` coincides with `processedFileIds.has`, since
the source adds to both together.  A record whose identifier is already
present is skipped without parsing; otherwise `JSON.parse` runs first, and
a parse failure propagates as the error of the whole pass. -/
def processPass (filterBy : Option FilterBy) (accessIds : List String)
    (mintedStream : Bool) :
    List RawFile → List (String × FileData) → Except String (List (String × FileData))
  | [], acc => .ok acc
  | f :: rest, acc =>
    let dataIdentifier := jsToLower f.fileIdentifier
    if (acc.lookup dataIdentifier).isSome then
      processPass filterBy accessIds mintedStream rest acc
    else
      match f.fileMetadata with
      | .error e => .error e
      | .ok fileMetadata =>
        if hasRequiredMetadata fileMetadata then
          let fileData := mkFileData accessIds mintedStream f fileMetadata
          if matchesFilter filterBy fileData then
            processPass filterBy accessIds mintedStream rest
              (acc ++ [(dataIdentifier, fileData)])
          else
            processPass filterBy accessIds mintedStream rest acc
        else
          processPass filterBy accessIds mintedStream rest acc

/-- The accumulated result of one feed's pagination (list.ts lines 73-86). -/
structure AllData where
  permissionedFileDeployeds : List RawFile
  permissionedFileAccessMinteds : List RawFile
  deriving Repr

/-- Models `accessMintedFileIds` (list.ts lines 196-204): lowercased identifiers of
every access-minted record of both feeds, collected before the merge. -/
def accessMintedIds (ownerData minterData : AllData) : List String :=
  ownerData.permissionedFileAccessMinteds.map (fun f => jsToLower f.fileIdentifier) ++
    minterData.permissionedFileAccessMinteds.map (fun f => jsToLower f.fileIdentifier)

/-- The four logical streams in the source's fixed pass order, each record
tagged with the `mintedStream` flag of its pass. -/
def taggedStreams (ownerData minterData : AllData) : List (RawFile × Bool) :=
  ownerData.permissionedFileDeployeds.map (fun f => (f, false)) ++
    ownerData.permissionedFileAccessMinteds.map (fun f => (f, true)) ++
    minterData.permissionedFileDeployeds.map (fun f => (f, false)) ++
    minterData.permissionedFileAccessMinteds.map (fun f => (f, true))

/-- The merge stage (list.ts lines 191-300): the four passes run in fixed
order over the shared `allFiles` accumulator. -/
def mergeAllFiles (filterBy : Option FilterBy) (ownerData minterData : AllData) :
    Except String (List (String × FileData)) :=
  let accessIds := accessMintedIds ownerData minterData
  match processPass filterBy accessIds false ownerData.permissionedFileDeployeds [] with
  | .error e => .error e
  | .ok a1 =>
    match processPass filterBy accessIds true ownerData.permissionedFileAccessMinteds a1 with
    | .error e => .error e
    | .ok a2 =>
      match processPass filterBy accessIds false minterData.permissionedFileDeployeds a2 with
      | .error e => .error e
      | .ok a3 =>
        processPass filterBy accessIds true minterData.permissionedFileAccessMinteds a3

/-- Lexicographic strict order on character lists by code point, the order
model underlying `localeCompare`. -/
def strLtList : List Char → List Char → Bool
  | [], [] => false
  | [], _ :: _ => true
  | _ :: _, [] => false
  | a :: as, b :: bs =>
    if a.toNat < b.toNat then true
    else if b.toNat < a.toNat then false
    else strLtList as bs

/-- Sign model of `String.prototype.localeCompare`: only the sign of the
result is specified, with string order modelled lexicographically. -/
def localeCompare (a b : String) : Int :=
  if strLtList a.data b.data then -1 else if strLtList b.data a.data then 1 else 0

/-- The sort comparator (list.ts lines 341-352), applied to the two entries'
values at the sort field. -/
def sortComparator (sortBy : SortBy) (a b : FileData) : Int :=
  let aValue := a.dataMetadata.get sortBy.field
  let bValue := b.dataMetadata.get sortBy.field
  match aValue, bValue with
  | none, none => 0
  | none, some _ => if sortBy.direction = some SortDirection.desc then 1 else -1
  | some _, none => if sortBy.direction = some SortDirection.desc then -1 else 1
  | some av, some bv =>
    let comparison := localeCompare av bv
    if sortBy.direction = some SortDirection.desc then -comparison else comparison

/-- The boolean "sorts no later than" relation induced by the comparator:
a stable sort places `a` before `b` when the comparator is `≤ 0`. -/
def entryLE (sortBy : SortBy) (a b : String × FileData) : Bool :=
  decide (sortComparator sortBy a.2 b.2 ≤ 0)

/-- The sort stage (list.ts lines 339-356): `Object.entries(...).sort(...)`
followed by `Object.fromEntries`.  ECMAScript `Array.prototype.sort` is
stable; with the consistent comparator above the stable order is unique, so
it is modelled by a stable insertion sort under the "sorts no later than"
relation. -/
def sortEntries (sortBy : SortBy) (files : List (String × FileData)) :
    List (String × FileData) :=
  List.insertionSort (fun a b => entryLE sortBy a b = true) files

/-- One page payload; either array may be absent from the JSON body
(`pageData.permissionedFileDeployeds || []`, list.ts lines 100-107). -/
structure PageData where
  permissionedFileDeployeds : Option (List RawFile)
  permissionedFileAccessMinteds : Option (List RawFile)
  deriving Repr

/-- An HTTP response from the graph page endpoints; `body` is what
`response.json()` yields. -/
structure HttpResponse where
  status : Nat
  body : PageData
  deriving Repr

/-- Models `response.ok`: status in the 2xx range. -/
def respOk (status : Nat) : Bool :=
  200 ≤ status && status ≤ 299

/-- Models `x || []` on an optional array. -/
def jsOrEmpty (o : Option (List RawFile)) : List RawFile :=
  match o with
  | some l => l
  | none => []

/-- Models `fetchPage` (list.ts lines 31-51).  Here `responses n` is the response the
service would give to the `n`-th request for this page; the source performs
exactly one `fetch`, so only `responses 0` is consulted.  A non-2xx status
throws `API request failed with status N`; there is no retry branch. -/
def fetchPage (responses : Nat → HttpResponse) (skip : Nat) :
    Except String PageData :=
  let response := responses 0
  if respOk response.status then .ok response.body
  else .error ("API request failed with status " ++ toString response.status)

/-- The body of the `while (hasMore && page < maxPages)` loop of
`fetchAllPages` (list.ts lines 88-117), with explicit fuel (`none` =
fuel exhausted before the loop exited).  `net i` is the response to the
feed's `i`-th page request.  Besides the loop result it returns the list of
`skip` offsets requested, in request order. -/
def fetchAllPagesGo (net : Nat → HttpResponse) (pageSize : Nat)
    (maxPages : Option Nat) :
    Nat → Nat → Nat → Bool → AllData → Option (Except String AllData × List Nat)
  | 0, _, _, _, _ => none
  | fuel + 1, skip, page, hasMore, allData =>
    if hasMore && ltMax page maxPages then
      match fetchPage (fun attempt => net (page + attempt)) skip with
      | .error e => some (.error e, [skip])
      | .ok pageData =>
        let allData' : AllData :=
          { permissionedFileDeployeds :=
              allData.permissionedFileDeployeds ++
                jsOrEmpty pageData.permissionedFileDeployeds
            permissionedFileAccessMinteds :=
              allData.permissionedFileAccessMinteds ++
                jsOrEmpty pageData.permissionedFileAccessMinteds }
        let hasMore' :=
          (jsOrEmpty pageData.permissionedFileDeployeds).length == pageSize
        match fetchAllPagesGo net pageSize maxPages fuel (skip + pageSize)
            (page + 1) hasMore' allData' with
        | none => none
        | some (res, trace) => some (res, skip :: trace)
    else
      some (.ok allData, [])

/-- Models `fetchAllPages` (list.ts lines 72-120): the loop starts at
`skip = 0`, `page = 0`, `hasMore = true` with empty accumulators. -/
def fetchAllPages (net : Nat → HttpResponse) (pageSize : Nat)
    (maxPages : Option Nat) (fuel : Nat) :
    Option (Except String AllData × List Nat) :=
  fetchAllPagesGo net pageSize maxPages fuel 0 0 true
    { permissionedFileDeployeds := [], permissionedFileAccessMinteds := [] }

/-- Response of the batch `isDeleted` endpoint; `deletedFiles` is absent
when the JSON body carries no such mapping. -/
structure DelHttpResponse where
  status : Nat
  deletedFiles : Option (List (String × Bool))
  deriving Repr

/-- Models `areFilesDeleted` (list.ts lines 54-69): one request carrying the whole
identifier list; non-2xx throws, otherwise `data.deletedFiles || {}`. -/
def areFilesDeleted (delNet : List String → DelHttpResponse)
    (fileIdentifiers : List String) : Except String (List (String × Bool)) :=
  let response := delNet fileIdentifiers
  if respOk response.status then
    .ok (match response.deletedFiles with
         | some m => m
         | none => [])
  else .error ("API request failed with status " ++ toString response.status)

/-- Models `deletionStatuses[dataIdentifier] || false` (list.ts line 319). -/
def jsLookupBool (statuses : List (String × Bool)) (id : String) : Bool :=
  match statuses.lookup id with
  | some b => b
  | none => false

/-- The tombstone-filter stage (list.ts lines 302-336).  Returns the
`finalFiles` entries together with the list of batch requests issued (the
network trace): no request is issued when `allFiles` is empty; on a thrown
check the catch block copies `allFiles` over unchanged. -/
def filterDeletedTr (delNet : List String → DelHttpResponse)
    (allFiles : List (String × FileData)) :
    List (String × FileData) × List (List String) :=
  let allFileIdentifiers := allFiles.map (fun p => p.1)
  if 0 < allFileIdentifiers.length then
    match areFilesDeleted delNet allFileIdentifiers with
    | .ok deletionStatuses =>
      (allFiles.filter (fun p => !jsLookupBool deletionStatuses p.1),
        [allFileIdentifiers])
    | .error _ => (allFiles, [allFileIdentifiers])
  else
    ([], [])

/-- Computes `pageSize` as at list.ts line 23. -/
def effPageSize (filter : Option Filter) : Nat :=
  jsOrNum ((filter.bind Filter.pagination).bind Pagination.pageSize) 100

/-- Computes `maxPages` as at list.ts line 24 (`none` = `Infinity`). -/
def effMaxPages (filter : Option Filter) : Option Nat :=
  jsOrInfinity ((filter.bind Filter.pagination).bind Pagination.maxPages)

/-- Everything after the two fetches: merge, tombstone filter, optional
sort (list.ts lines 191-363). -/
def mergeAndFinish (delNet : List String → DelHttpResponse)
    (filter : Option Filter) (ownerData minterData : AllData) :
    Except String (List (String × FileData)) :=
  match mergeAllFiles (filter.bind Filter.filterBy) ownerData minterData with
  | .error e => .error e
  | .ok allFiles =>
    let finalFiles := (filterDeletedTr delNet allFiles).1
    match filter.bind Filter.sortBy with
    | some sortBy => .ok (sortEntries sortBy finalFiles)
    | none => .ok finalFiles

/-- The `list` function (list.ts lines 1-364).  `ownerNet`/`minterNet` give
the responses of the two feeds' successive page requests, `delNet` the
batch existence check's response as a function of the identifiers sent.
`none` means the page loop ran out of fuel (the source loop would still be
running).  The two feeds are fetched via `Promise.all`; with both loops
deterministic, joining their results after both complete is
order-independent. -/
def list (ownerNet minterNet : Nat → HttpResponse)
    (delNet : List String → DelHttpResponse)
    (filter : Option Filter) (fuel : Nat) :
    Option (Except String (List (String × FileData))) :=
  let pageSize := effPageSize filter
  let maxPages := effMaxPages filter
  match fetchAllPages ownerNet pageSize maxPages fuel,
      fetchAllPages minterNet pageSize maxPages fuel with
  | some (.ok ownerData, _), some (.ok minterData, _) =>
    some (mergeAndFinish delNet filter ownerData minterData)
  | some (.error e, _), some _ => some (.error e)
  | some _, some (.error e, _) => some (.error e)
  | _, _ => none

/-! ## Spec-side definitions (for refinement claims)

These definitions follow the specification's words, to be compared against
the source embedding above.  They are not translations of the source. -/

/-- The acceptance test a single candidate record undergoes in a merge pass
with a fresh identifier: the blob must parse, pass the required-metadata
gate, and the built entry must match the filter predicate; the result is the
entry it would contribute. -/
def acceptedEntry (accessIds : List String) (filterBy : Option FilterBy)
    (mintedStream : Bool) (f : RawFile) : Option FileData :=
  match f.fileMetadata with
  | .error _ => none
  | .ok m =>
    if hasRequiredMetadata m then
      let fd := mkFileData accessIds mintedStream f m
      if matchesFilter filterBy fd then some fd else none
    else none

/-- Spec-side first-seen-wins rule: the merged entry for `id` is the one
contributed by the earliest record, in the four-stream precedence order,
whose lowercased identifier is `id` and which passes the acceptance test. -/
def specFirstAccepted (accessIds : List String) (filterBy : Option FilterBy) :
    List (RawFile × Bool) → String → Option FileData
  | [], _ => none
  | (f, ms) :: rest, id =>
    if jsToLower f.fileIdentifier = id then
      match acceptedEntry accessIds filterBy ms f with
      | some fd => some fd
      | none => specFirstAccepted accessIds filterBy rest id
    else
      specFirstAccepted accessIds filterBy rest id

/-! ## Concrete inputs used by counterexamples and witnesses -/

/-- A metadata shape whose only interesting fields are `name` and the nested
`filecoinStorageInfo.pieceCID` locator. -/
def mdNested (nm cid : String) : FileMetadata :=
  { name := some nm, type := none, mimeType := none, subtype := none
    accessType := none, fsiPieceCID := some cid, fsiPieceCid := none
    pieceCID := none, pieceCid := none, encryptedDataIpfsHash := none
    stringified := "json" }

/-- A metadata shape with only a top-level `pieceCID` locator (no nested
storage info, no pointer marker). -/
def mdTopOnly : FileMetadata :=
  { name := some "doc", type := none, mimeType := none, subtype := none
    accessType := none, fsiPieceCID := none, fsiPieceCid := none
    pieceCID := some "bafytop", pieceCid := none
    encryptedDataIpfsHash := none, stringified := "json" }

def exDataMetadata (nm : Option String) : DataMetadata :=
  { name := nm, type := none, mimeType := none, subtype := none
    pieceCid := some "cid", accessType := none, userMetaData := "json" }

def exFileData (ident : String) (nm : Option String) : FileData :=
  { cid := "cid", dataContractAddress := "0xc", dataIdentifier := ident
    dataMetadata := exDataMetadata nm, owner := "0xo", isAccessMinted := false }

def exEntryB : String × FileData := ("idb", exFileData "idb" (some "b"))
def exEntryU : String × FileData := ("idu", exFileData "idu" none)
def exEntryA : String × FileData := ("ida", exFileData "ida" (some "a"))

/-- Entries with `name` values `"b"`, `undefined`, `"a"`, in that order. -/
def exEntries : List (String × FileData) := [exEntryB, exEntryU, exEntryA]

def ascNameSort : SortBy := { field := "name", direction := some SortDirection.asc }
def descNameSort : SortBy := { field := "name", direction := some SortDirection.desc }

def emptyPage : PageData :=
  { permissionedFileDeployeds := some [], permissionedFileAccessMinteds := some [] }

/-- A service that answers the first request for a page with HTTP 429 and
every later request for it with HTTP 200. -/
def rateLimitedNet : Nat → HttpResponse := fun attempt =>
  if attempt = 0 then { status := 429, body := emptyPage }
  else { status := 200, body := emptyPage }

def rawTopOnly : RawFile :=
  { fileIdentifier := "TopId", fileMetadata := .ok mdTopOnly
    fileContractAddress := "0xcontract", fileOwner := "0xowner" }

def emptyFeed : AllData :=
  { permissionedFileDeployeds := [], permissionedFileAccessMinteds := [] }

def topOnlyFeed : AllData :=
  { permissionedFileDeployeds := [rawTopOnly], permissionedFileAccessMinteds := [] }

/-- Owner-deployed record for identifier `A`: passes the metadata gate but
its `name` is `"y"`. -/
def rawOwnerA : RawFile :=
  { fileIdentifier := "A", fileMetadata := .ok (mdNested "y" "cidOwner")
    fileContractAddress := "0xownerC", fileOwner := "0xownerO" }

/-- Minter-deployed record for the same identifier (different casing):
passes the gate and its `name` is `"x"`. -/
def rawMinterA : RawFile :=
  { fileIdentifier := "a", fileMetadata := .ok (mdNested "x" "cidMinter")
    fileContractAddress := "0xminterC", fileOwner := "0xminterO" }

def ownerFeedC4 : AllData :=
  { permissionedFileDeployeds := [rawOwnerA], permissionedFileAccessMinteds := [] }

def minterFeedC4 : AllData :=
  { permissionedFileDeployeds := [rawMinterA], permissionedFileAccessMinteds := [] }

/-- Filter selecting entries whose `name` equals `"x"` (default operator). -/
def fbNameX : FilterBy := { field := "name", value := "x", operator := none }

def rawW1 : RawFile :=
  { fileIdentifier := "W", fileMetadata := .ok (mdNested "w1" "cid1")
    fileContractAddress := "0xc1", fileOwner := "0xo1" }

def rawW2 : RawFile :=
  { fileIdentifier := "w", fileMetadata := .ok (mdNested "w2" "cid2")
    fileContractAddress := "0xc2", fileOwner := "0xo2" }

def ownerFeedW : AllData :=
  { permissionedFileDeployeds := [rawW1], permissionedFileAccessMinteds := [] }

def minterFeedW : AllData :=
  { permissionedFileDeployeds := [rawW2], permissionedFileAccessMinteds := [] }

/-- Minter feed whose access-minted stream carries `rawW2`. -/
def minterFeedMintedW : AllData :=
  { permissionedFileDeployeds := [], permissionedFileAccessMinteds := [rawW2] }

def rawP0 : RawFile :=
  { fileIdentifier := "p0", fileMetadata := .ok (mdNested "n0" "c0")
    fileContractAddress := "0xc", fileOwner := "0xo" }

/-- A feed whose page 0 is full (one record at page size 1) and whose
page 1 is empty. -/
def pagedNet : Nat → HttpResponse := fun i =>
  if i = 0 then
    { status := 200
      body := { permissionedFileDeployeds := some [rawP0]
                permissionedFileAccessMinteds := some [] } }
  else { status := 200, body := emptyPage }

def delNetFail : List String → DelHttpResponse := fun _ =>
  { status := 500, deletedFiles := none }

def delNetOkEmpty : List String → DelHttpResponse := fun _ =>
  { status := 200, deletedFiles := none }

def delNetMark (m : List (String × Bool)) : List String → DelHttpResponse := fun _ =>
  { status := 200, deletedFiles := some m }

def exFilesDel : List (String × FileData) :=
  [("ida", exFileData "ida" (some "a")), ("idb", exFileData "idb" (some "b"))]

def rawGoodX : RawFile :=
  { fileIdentifier := "X", fileMetadata := .ok (mdNested "nx" "cidX")
    fileContractAddress := "0xcX", fileOwner := "0xoX" }

/-- A record for the same identifier whose metadata blob does not parse. -/
def rawBadX : RawFile :=
  { fileIdentifier := "x", fileMetadata := .error "Unexpected token"
    fileContractAddress := "0xcB", fileOwner := "0xoB" }

def ownerFeedC8 : AllData :=
  { permissionedFileDeployeds := [rawGoodX], permissionedFileAccessMinteds := [] }

def minterFeedC8 : AllData :=
  { permissionedFileDeployeds := [rawBadX], permissionedFileAccessMinteds := [] }

/-! ## Helper lemmas: the comparator induces a total preorder -/

theorem charEq_of_toNat_eq {a b : Char} (h : a.toNat = b.toNat) : a = b :=
  Char.eq_of_val_eq (UInt32.eq_of_toBitVec_eq (BitVec.eq_of_toNat_eq h))

theorem strLtList_asymm : ∀ {x y : List Char},
    strLtList x y = true → strLtList y x = false := by
  intro x
  induction x with
  | nil =>
    intro y h
    cases y with
    | nil => simp [strLtList] at h
    | cons b bs => simp [strLtList]
  | cons a as ih =>
    intro y h
    cases y with
    | nil => simp [strLtList] at h
    | cons b bs =>
      simp only [strLtList] at h ⊢
      by_cases h1 : a.toNat < b.toNat
      · simp only [if_pos h1] at h
        have h2 : ¬ b.toNat < a.toNat := by omega
        simp [if_neg h2, if_pos h1]
      · simp only [if_neg h1] at h
        by_cases h2 : b.toNat < a.toNat
        · simp [if_pos h2] at h
        · simp only [if_neg h2] at h
          simp [if_neg h1, if_neg h2, ih h]

theorem strLtList_trans : ∀ {x y z : List Char},
    strLtList x y = true → strLtList y z = true → strLtList x z = true := by
  intro x
  induction x with
  | nil =>
    intro y z hxy hyz
    cases y with
    | nil => simp [strLtList] at hxy
    | cons b bs =>
      cases z with
      | nil => simp [strLtList] at hyz
      | cons c cs => simp [strLtList]
  | cons a as ih =>
    intro y z hxy hyz
    cases y with
    | nil => simp [strLtList] at hxy
    | cons b bs =>
      cases z with
      | nil => simp [strLtList] at hyz
      | cons c cs =>
        simp only [strLtList] at hxy hyz ⊢
        by_cases h1 : a.toNat < b.toNat <;> by_cases h2 : b.toNat < c.toNat
        · have : a.toNat < c.toNat := by omega
          simp [this]
        · simp only [if_pos h1] at hxy
          simp only [if_neg h2] at hyz
          by_cases h3 : c.toNat < b.toNat
          · simp [if_pos h3] at hyz
          · simp only [if_neg h3] at hyz
            have hac : a.toNat < c.toNat := by omega
            simp [hac]
        · simp only [if_neg h1] at hxy
          by_cases h3 : b.toNat < a.toNat
          · simp [if_pos h3] at hxy
          · simp only [if_neg h3] at hxy
            have hac : a.toNat < c.toNat := by omega
            simp [hac]
        · simp only [if_neg h1] at hxy
          simp only [if_neg h2] at hyz
          by_cases h3 : b.toNat < a.toNat
          · simp [if_pos h3] at hxy
          · by_cases h4 : c.toNat < b.toNat
            · simp [if_pos h4] at hyz
            · simp only [if_neg h3] at hxy
              simp only [if_neg h4] at hyz
              have hac1 : ¬ a.toNat < c.toNat := by omega
              have hac2 : ¬ c.toNat < a.toNat := by omega
              simp [if_neg hac1, if_neg hac2, ih hxy hyz]

theorem strLtList_conn : ∀ {x y : List Char},
    strLtList x y = false → strLtList y x = false → x = y := by
  intro x
  induction x with
  | nil =>
    intro y hxy _
    cases y with
    | nil => rfl
    | cons b bs => simp [strLtList] at hxy
  | cons a as ih =>
    intro y hxy hyx
    cases y with
    | nil => simp [strLtList] at hyx
    | cons b bs =>
      simp only [strLtList] at hxy hyx
      by_cases h1 : a.toNat < b.toNat
      · simp [if_pos h1] at hxy
      · by_cases h2 : b.toNat < a.toNat
        · simp [if_pos h2] at hyx
        · simp only [if_neg h1, if_neg h2] at hxy hyx
          have hab : a = b := charEq_of_toNat_eq (by omega)
          rw [hab, ih hxy hyx]

theorem localeCompare_nonpos {a b : String} :
    localeCompare a b ≤ 0 ↔ strLtList b.data a.data = false := by
  unfold localeCompare
  by_cases h1 : strLtList a.data b.data = true
  · simp [h1, strLtList_asymm h1]
  · simp only [Bool.not_eq_true] at h1
    simp only [h1, if_false]
    by_cases h2 : strLtList b.data a.data = true
    · simp [h2]
    · simp only [Bool.not_eq_true] at h2
      simp [h2]

theorem localeCompare_nonneg {a b : String} :
    0 ≤ localeCompare a b ↔ strLtList a.data b.data = false := by
  unfold localeCompare
  by_cases h1 : strLtList a.data b.data = true
  · simp [h1]
  · simp only [Bool.not_eq_true] at h1
    simp only [h1, if_false]
    by_cases h2 : strLtList b.data a.data = true
    · simp [h2]
    · simp only [Bool.not_eq_true] at h2
      simp [h2]

theorem strLtList_false_trans {x y z : List Char}
    (hxy : strLtList x y = false) (hyz : strLtList y z = false) :
    strLtList x z = false := by
  by_cases hzy : strLtList z y = true
  · by_cases hyx : strLtList y x = true
    · exact strLtList_asymm (strLtList_trans hzy hyx)
    · have : y = x := strLtList_conn (by simpa using hyx) hxy
      rw [← this]
      exact strLtList_asymm hzy
  · have : z = y := strLtList_conn (by simpa using hzy) hyz
    rw [this]
    exact hxy

theorem localeCompare_nonpos_trans {a b c : String}
    (h1 : localeCompare a b ≤ 0) (h2 : localeCompare b c ≤ 0) :
    localeCompare a c ≤ 0 := by
  rw [localeCompare_nonpos] at h1 h2 ⊢
  exact strLtList_false_trans h2 h1

theorem localeCompare_nonneg_trans {a b c : String}
    (h1 : 0 ≤ localeCompare a b) (h2 : 0 ≤ localeCompare b c) :
    0 ≤ localeCompare a c := by
  rw [localeCompare_nonneg] at h1 h2 ⊢
  exact strLtList_false_trans h1 h2

theorem sortComparator_neg (sortBy : SortBy) (a b : FileData) :
    sortComparator sortBy a b = -sortComparator sortBy b a := by
  unfold sortComparator localeCompare
  cases ha : a.dataMetadata.get sortBy.field <;>
    cases hb : b.dataMetadata.get sortBy.field <;>
    by_cases hd : sortBy.direction = some SortDirection.desc <;>
    simp only [hd, if_true, if_false, if_pos, if_neg, not_false_iff] <;>
    try simp [hd]
  all_goals {
    rename_i av bv
    by_cases h1 : strLtList av.data bv.data = true
    · simp [h1, strLtList_asymm h1]
    · simp only [Bool.not_eq_true] at h1
      by_cases h2 : strLtList bv.data av.data = true
      · simp [h1, h2]
      · simp only [Bool.not_eq_true] at h2
        simp [h1, h2]
  }

theorem sortComparator_trans (sortBy : SortBy) {x y z : FileData}
    (hxy : sortComparator sortBy x y ≤ 0) (hyz : sortComparator sortBy y z ≤ 0) :
    sortComparator sortBy x z ≤ 0 := by
  unfold sortComparator at hxy hyz ⊢
  cases hx : x.dataMetadata.get sortBy.field <;>
  cases hy : y.dataMetadata.get sortBy.field <;>
  cases hz : z.dataMetadata.get sortBy.field <;>
  by_cases hd : sortBy.direction = some SortDirection.desc <;>
  simp only [hx, hy, hz, hd, if_true, if_false, if_pos, if_neg, not_false_iff] at hxy hyz ⊢ <;>
  first
  | omega
  | exact localeCompare_nonpos_trans hxy hyz
  | (rw [neg_nonpos] at hxy hyz ⊢
     exact localeCompare_nonneg_trans hxy hyz)

theorem entryLE_trans (sortBy : SortBy) : ∀ a b c : String × FileData,
    entryLE sortBy a b = true → entryLE sortBy b c = true → entryLE sortBy a c = true := by
  intro a b c hab hbc
  simp only [entryLE, decide_eq_true_eq] at hab hbc ⊢
  exact sortComparator_trans sortBy hab hbc

theorem entryLE_total (sortBy : SortBy) : ∀ a b : String × FileData,
    entryLE sortBy a b = true ∨ entryLE sortBy b a = true := by
  intro a b
  simp only [entryLE, decide_eq_true_eq]
  by_cases h : sortComparator sortBy a.2 b.2 ≤ 0
  · exact Or.inl h
  · refine Or.inr ?_
    rw [sortComparator_neg]
    omega

/-- The output of the sort stage is sorted under the comparator's
"no later than" relation. -/
theorem sortEntries_sorted (sortBy : SortBy) (files : List (String × FileData)) :
    (sortEntries sortBy files).Pairwise (fun a b => entryLE sortBy a b = true) := by
  haveI : IsTotal (String × FileData) (fun a b => entryLE sortBy a b = true) :=
    ⟨entryLE_total sortBy⟩
  haveI : IsTrans (String × FileData) (fun a b => entryLE sortBy a b = true) :=
    ⟨entryLE_trans sortBy⟩
  exact List.sorted_insertionSort _ files

/-! ## Helper lemmas: the merge passes -/

theorem processPass_preserves (filterBy : Option FilterBy) (accessIds : List String)
    (mintedStream : Bool) :
    ∀ (files : List RawFile) (acc out : List (String × FileData)) (id : String)
      (fd : FileData),
      processPass filterBy accessIds mintedStream files acc = .ok out →
      acc.lookup id = some fd → out.lookup id = some fd := by
  intro files
  induction files with
  | nil =>
    intro acc out id fd h hacc
    simp only [processPass, Except.ok.injEq] at h
    rw [← h]
    exact hacc
  | cons f rest ih =>
    intro acc out id fd h hacc
    simp only [processPass] at h
    split at h
    · exact ih _ _ _ _ h hacc
    · split at h
      · exact absurd h (by simp)
      · split at h
        · split at h
          · refine ih _ _ _ _ h ?_
            rw [List.lookup_append, hacc]
            rfl
          · exact ih _ _ _ _ h hacc
        · exact ih _ _ _ _ h hacc

theorem processPass_fresh (filterBy : Option FilterBy) (accessIds : List String)
    (mintedStream : Bool) :
    ∀ (files : List RawFile) (acc out : List (String × FileData)) (id : String),
      processPass filterBy accessIds mintedStream files acc = .ok out →
      acc.lookup id = none →
      out.lookup id =
        specFirstAccepted accessIds filterBy
          (files.map (fun f => (f, mintedStream))) id := by
  intro files
  induction files with
  | nil =>
    intro acc out id h hacc
    simp only [processPass, Except.ok.injEq] at h
    rw [← h, hacc]
    simp [specFirstAccepted]
  | cons f rest ih =>
    intro acc out id h hacc
    simp only [processPass] at h
    simp only [List.map_cons, specFirstAccepted]
    split at h
    · -- the identifier of `f` is already present, hence distinct from `id`
      rename_i hsome
      have hid : ¬ jsToLower f.fileIdentifier = id := by
        intro he
        rw [he, hacc] at hsome
        simp at hsome
      rw [if_neg hid]
      exact ih _ _ _ h hacc
    · rename_i hnone
      split at h
      · exact absurd h (by simp)
      · rename_i m heq
        split at h
        · rename_i hgate
          split at h
          · rename_i hfilter
            by_cases hid : jsToLower f.fileIdentifier = id
            · subst hid
              rw [if_pos rfl]
              have hacceq : acceptedEntry accessIds filterBy mintedStream f =
                  some (mkFileData accessIds mintedStream f m) := by
                simp [acceptedEntry, heq, hgate, hfilter]
              rw [hacceq]
              refine processPass_preserves _ _ _ _ _ _ _ _ h ?_
              rw [List.lookup_append, hacc]
              simp [List.lookup]
            · rw [if_neg hid]
              refine ih _ _ _ h ?_
              rw [List.lookup_append, hacc]
              have : List.lookup id
                  [(jsToLower f.fileIdentifier, mkFileData accessIds mintedStream f m)] =
                  none := by
                have hbeq : (id == jsToLower f.fileIdentifier) = false := by
                  simp only [beq_eq_false_iff_ne, ne_eq]
                  exact fun he => hid he.symm
                simp [List.lookup, hbeq]
              rw [this]
              rfl
          · rename_i hfilter
            by_cases hid : jsToLower f.fileIdentifier = id
            · subst hid
              rw [if_pos rfl]
              have hacceq : acceptedEntry accessIds filterBy mintedStream f = none := by
                simp [acceptedEntry, heq, hgate, hfilter]
              rw [hacceq]
              exact ih _ _ _ h hacc
            · rw [if_neg hid]
              exact ih _ _ _ h hacc
        · rename_i hgate
          by_cases hid : jsToLower f.fileIdentifier = id
          · subst hid
            rw [if_pos rfl]
            have hacceq : acceptedEntry accessIds filterBy mintedStream f = none := by
              simp [acceptedEntry, heq, hgate]
            rw [hacceq]
            exact ih _ _ _ h hacc
          · rw [if_neg hid]
            exact ih _ _ _ h hacc

theorem processPass_error_mem (filterBy : Option FilterBy) (accessIds : List String)
    (mintedStream : Bool) :
    ∀ (files : List RawFile) (acc out : List (String × FileData)) (f : RawFile)
      (e : String),
      processPass filterBy accessIds mintedStream files acc = .ok out →
      f ∈ files → f.fileMetadata = .error e →
      ∃ fd, out.lookup (jsToLower f.fileIdentifier) = some fd := by
  intro files
  induction files with
  | nil =>
    intro acc out f e _ hmem _
    exact absurd hmem (List.not_mem_nil f)
  | cons g rest ih =>
    intro acc out f e h hmem herr
    simp only [processPass] at h
    rcases List.mem_cons.mp hmem with hfg | hfr
    · subst hfg
      split at h
      · rename_i hsome
        rcases Option.isSome_iff_exists.mp hsome with ⟨fd, hfd⟩
        exact ⟨fd, processPass_preserves _ _ _ _ _ _ _ _ h hfd⟩
      · split at h
        · exact absurd h (by simp)
        · rename_i m heq
          rw [herr] at heq
          exact absurd heq (by simp)
    · split at h
      · exact ih _ _ _ _ h hfr herr
      · split at h
        · exact absurd h (by simp)
        · split at h
          · split at h
            · exact ih _ _ _ _ h hfr herr
            · exact ih _ _ _ _ h hfr herr
          · exact ih _ _ _ _ h hfr herr

theorem specFirstAccepted_append (accessIds : List String) (filterBy : Option FilterBy) :
    ∀ (A B : List (RawFile × Bool)) (id : String),
      specFirstAccepted accessIds filterBy (A ++ B) id =
        (specFirstAccepted accessIds filterBy A id).or
          (specFirstAccepted accessIds filterBy B id) := by
  intro A
  induction A with
  | nil =>
    intro B id
    simp [specFirstAccepted, Option.or]
  | cons p rest ih =>
    intro B id
    obtain ⟨f, ms⟩ := p
    simp only [List.cons_append, specFirstAccepted]
    by_cases hid : jsToLower f.fileIdentifier = id
    · rw [if_pos hid, if_pos hid]
      cases hacc : acceptedEntry accessIds filterBy ms f
      · exact ih B id
      · simp [Option.or]
    · rw [if_neg hid, if_neg hid]
      exact ih B id

theorem specFirstAccepted_origin (accessIds : List String) (filterBy : Option FilterBy) :
    ∀ (T : List (RawFile × Bool)) (id : String) (fd : FileData),
      specFirstAccepted accessIds filterBy T id = some fd →
      ∃ f ms, (f, ms) ∈ T ∧ jsToLower f.fileIdentifier = id ∧
        acceptedEntry accessIds filterBy ms f = some fd := by
  intro T
  induction T with
  | nil =>
    intro id fd h
    simp [specFirstAccepted] at h
  | cons p rest ih =>
    intro id fd h
    obtain ⟨f, ms⟩ := p
    simp only [specFirstAccepted] at h
    split at h
    · rename_i hid
      split at h
      · rename_i fd' hacc
        cases h
        exact ⟨f, ms, List.mem_cons_self _ _, hid, hacc⟩
      · obtain ⟨g, ms', hmem, hid', hacc'⟩ := ih id fd h
        exact ⟨g, ms', List.mem_cons_of_mem _ hmem, hid', hacc'⟩
    · obtain ⟨g, ms', hmem, hid', hacc'⟩ := ih id fd h
      exact ⟨g, ms', List.mem_cons_of_mem _ hmem, hid', hacc'⟩

/-- Characterization of the merge: when the merge succeeds, the entry table
realizes the spec's first-seen-wins rule over the four tagged streams. -/
theorem mergeAllFiles_lookup {filterBy : Option FilterBy} {ownerData minterData : AllData}
    {out : List (String × FileData)}
    (h : mergeAllFiles filterBy ownerData minterData = .ok out) (id : String) :
    out.lookup id =
      specFirstAccepted (accessMintedIds ownerData minterData) filterBy
        (taggedStreams ownerData minterData) id := by
  simp only [mergeAllFiles] at h
  split at h
  · exact absurd h (by simp)
  · rename_i a1 h1
    split at h
    · exact absurd h (by simp)
    · rename_i a2 h2
      split at h
      · exact absurd h (by simp)
      · rename_i a3 h3
        simp only [taggedStreams, specFirstAccepted_append]
        have l1 := processPass_fresh _ _ _ _ _ _ id h1 rfl
        cases c1 : List.lookup id a1 with
        | some fd =>
          rw [c1] at l1
          rw [processPass_preserves _ _ _ _ _ _ _ _ h
            (processPass_preserves _ _ _ _ _ _ _ _ h3
              (processPass_preserves _ _ _ _ _ _ _ _ h2 c1))]
          rw [← l1]
          rfl
        | none =>
          rw [c1] at l1
          have l2 := processPass_fresh _ _ _ _ _ _ id h2 c1
          cases c2 : List.lookup id a2 with
          | some fd =>
            rw [c2] at l2
            rw [processPass_preserves _ _ _ _ _ _ _ _ h
              (processPass_preserves _ _ _ _ _ _ _ _ h3 c2)]
            rw [← l1, ← l2]
            rfl
          | none =>
            rw [c2] at l2
            have l3 := processPass_fresh _ _ _ _ _ _ id h3 c2
            cases c3 : List.lookup id a3 with
            | some fd =>
              rw [c3] at l3
              rw [processPass_preserves _ _ _ _ _ _ _ _ h c3]
              rw [← l1, ← l2, ← l3]
              rfl
            | none =>
              rw [c3] at l3
              have l4 := processPass_fresh _ _ _ _ _ _ id h c3
              rw [l4, ← l1, ← l2, ← l3]
              rfl

/-! ## Helper lemmas: the pagination loop -/

theorem fetchAllPagesGo_spec (net : Nat → HttpResponse) (pageSize : Nat)
    (maxPages : Option Nat) (N : Nat)
    (hok : ∀ i, i < N → respOk (net i).status = true)
    (hfull : ∀ i, i + 1 < N →
      (jsOrEmpty (net i).body.permissionedFileDeployeds).length = pageSize)
    (hcont : ∀ i, i < N → ltMax i maxPages = true)
    (hstop : ltMax N maxPages = false ∨
      (0 < N ∧ (jsOrEmpty (net (N - 1)).body.permissionedFileDeployeds).length ≠ pageSize)) :
    ∀ (fuel p : Nat) (hm : Bool) (acc : AllData),
      p ≤ N → N - p + 1 ≤ fuel →
      (p < N → hm = true) →
      (p = N → (hm && ltMax p maxPages) = false) →
      fetchAllPagesGo net pageSize maxPages fuel (p * pageSize) p hm acc =
        some (.ok
          { permissionedFileDeployeds := acc.permissionedFileDeployeds ++
              (List.range' p (N - p)).flatMap
                (fun i => jsOrEmpty (net i).body.permissionedFileDeployeds)
            permissionedFileAccessMinteds := acc.permissionedFileAccessMinteds ++
              (List.range' p (N - p)).flatMap
                (fun i => jsOrEmpty (net i).body.permissionedFileAccessMinteds) },
          (List.range' p (N - p)).map (fun i => i * pageSize)) := by
  intro fuel
  induction fuel with
  | zero =>
    intro p hm acc hp hfuel _ _
    omega
  | succ fuel ih =>
    intro p hm acc hp hfuel hlt hN
    by_cases hpN : p < N
    · have hhm := hlt hpN
      subst hhm
      simp only [fetchAllPagesGo, hcont p hpN, Bool.and_self, if_true]
      simp only [fetchPage, Nat.add_zero, hok p hpN, if_true]
      have hmul : p * pageSize + pageSize = (p + 1) * pageSize := by ring
      rw [hmul]
      rw [ih (p + 1)
        ((jsOrEmpty (net p).body.permissionedFileDeployeds).length == pageSize) _
        (by omega) (by omega)
        (fun hlt1 => by simp [hfull p hlt1])
        (fun hpe => by
          rcases hstop with hs | ⟨hpos, hne⟩
          · rw [hpe, hs, Bool.and_false]
          · have hN1 : N - 1 = p := by omega
            rw [hN1] at hne
            have hbeq : ((jsOrEmpty (net p).body.permissionedFileDeployeds).length
                == pageSize) = false := by simp [hne]
            rw [hbeq, Bool.false_and])]
      have hNp : N - p = (N - (p + 1)) + 1 := by omega
      rw [hNp, List.range'_succ, List.flatMap_cons, List.flatMap_cons, List.map_cons]
      simp [List.append_assoc]
    · have hpe : p = N := by omega
      simp only [fetchAllPagesGo, hN hpe, if_false]
      have hz : N - p = 0 := by omega
      rw [hz]
      simp

/-! ## Claims -/

/-- C2 counterexample: the service answers the first request for the page
with HTTP 429 while every retry would succeed with HTTP 200, yet `fetchPage`
fails immediately — so a 429 is not retried with backoff and does abort the
fetch at once, contradicting the claim. -/
theorem C2_counterexample :
    fetchPage rateLimitedNet 0 = .error "API request failed with status 429" ∧
    respOk (rateLimitedNet 1).status = true :=
  ⟨rfl, rfl⟩

/-- C2 (amended): a rate-limit (HTTP 429) response makes `fetchPage` throw
`API request failed with status 429` immediately; no retry is attempted —
the result depends only on the first response, never on what later attempts
would have returned. -/
theorem C2_rate_limit_aborts (responses : Nat → HttpResponse) (skip : Nat)
    (h : (responses 0).status = 429) :
    fetchPage responses skip = .error "API request failed with status 429" ∧
    (∀ responses' : Nat → HttpResponse, responses' 0 = responses 0 →
      fetchPage responses' skip = fetchPage responses skip) := by
  constructor
  · show (if respOk (responses 0).status = true then Except.ok (responses 0).body
      else Except.error ("API request failed with status " ++
        toString (responses 0).status)) =
      Except.error "API request failed with status 429"
    rw [h]
    rfl
  · intro responses' h'
    show (if respOk (responses' 0).status = true then Except.ok (responses' 0).body
      else Except.error ("API request failed with status " ++
        toString (responses' 0).status)) = fetchPage responses skip
    rw [h']
    rfl

theorem C2_rate_limit_aborts_witness :
    (rateLimitedNet 0).status = 429 ∧
    fetchPage rateLimitedNet 0 = .error "API request failed with status 429" :=
  ⟨rfl, (C2_rate_limit_aborts rateLimitedNet 0 rfl).1⟩

/-- C9: a pagination option set to `0` (falsy in JavaScript) is replaced by
the default, exactly as when the option is omitted: `pageSize` becomes 100
and `maxPages` becomes unbounded, and the whole `list` run behaves
identically to a run with the pagination options omitted. -/
theorem C9_zero_pagination_defaults (fb : Option FilterBy) (sb : Option SortBy)
    (ownerNet minterNet : Nat → HttpResponse)
    (delNet : List String → DelHttpResponse) (fuel : Nat) :
    effPageSize (some ⟨fb, sb, some ⟨some 0, some 0⟩⟩) = 100 ∧
    effMaxPages (some ⟨fb, sb, some ⟨some 0, some 0⟩⟩) = none ∧
    effPageSize (some ⟨fb, sb, none⟩) = 100 ∧
    effMaxPages (some ⟨fb, sb, none⟩) = none ∧
    effPageSize none = 100 ∧
    effMaxPages none = none ∧
    list ownerNet minterNet delNet (some ⟨fb, sb, some ⟨some 0, some 0⟩⟩) fuel =
      list ownerNet minterNet delNet (some ⟨fb, sb, none⟩) fuel :=
  ⟨rfl, rfl, rfl, rfl, rfl, rfl, rfl⟩

/-- C3 counterexample: a record whose metadata carries only a top-level
locator.  Extraction by the declared precedence finds the locator (it is
present and truthy) and no pointer marker is present, yet the merge drops
the record — so acceptance is not governed by the extracted locator. -/
theorem C3_counterexample :
    jsTruthy (extractMetadata mdTopOnly).pieceCid = true ∧
    mdTopOnly.encryptedDataIpfsHash = none ∧
    mergeAllFiles none topOnlyFeed emptyFeed = .ok [] :=
  ⟨rfl, rfl, rfl⟩

/-- C3 (amended): a record with a fresh identifier and a parseable blob is
accepted exactly when the NESTED storage-info locator (either casing) is
truthy and the pointer-only marker is absent — a locator found only at top
level does not satisfy the gate; rejected records are silently dropped,
producing no entry and no error. -/
theorem C3_metadata_gate (accessIds : List String) (mintedStream : Bool)
    (f : RawFile) (m : FileMetadata) (acc : List (String × FileData))
    (hparse : f.fileMetadata = .ok m)
    (hfresh : acc.lookup (jsToLower f.fileIdentifier) = none) :
    processPass none accessIds mintedStream [f] acc =
      .ok (if (jsTruthy m.fsiPieceCID || jsTruthy m.fsiPieceCid) &&
              !jsTruthy m.encryptedDataIpfsHash
           then acc ++ [(jsToLower f.fileIdentifier, mkFileData accessIds mintedStream f m)]
           else acc) := by
  have hgate : hasRequiredMetadata m =
      ((jsTruthy m.fsiPieceCID || jsTruthy m.fsiPieceCid) &&
        !jsTruthy m.encryptedDataIpfsHash) := by
    unfold hasRequiredMetadata hasFilecoinStorage
    cases ha : jsTruthy m.fsiPieceCID <;>
      cases hb : jsTruthy m.fsiPieceCid <;>
      cases hc : jsTruthy m.encryptedDataIpfsHash <;> rfl
  simp only [processPass, hfresh, hparse, Option.isSome_none, Bool.false_eq_true,
    if_false, hgate, matchesFilter]
  split
  · simp [matchesFilter, processPass]
  · simp [processPass]

theorem C3_metadata_gate_witness :
    rawW1.fileMetadata = .ok (mdNested "w1" "cid1") ∧
    processPass none [] false [rawW1] [] =
      .ok (if (jsTruthy (mdNested "w1" "cid1").fsiPieceCID ||
              jsTruthy (mdNested "w1" "cid1").fsiPieceCid) &&
              !jsTruthy (mdNested "w1" "cid1").encryptedDataIpfsHash
           then [] ++ [(jsToLower rawW1.fileIdentifier,
                  mkFileData [] false rawW1 (mdNested "w1" "cid1"))]
           else []) :=
  ⟨rfl, C3_metadata_gate [] false rawW1 (mdNested "w1" "cid1") [] rfl rfl⟩

/-- C7: if the batch existence check throws (for any reason), the tombstone
filter returns the full entry set unchanged; on success exactly the entries
whose identifiers are confirmed deleted are removed; and a deletion-check
failure never surfaces as an error of the whole call — whenever the merge
succeeded, `mergeAndFinish` returns `.ok` whatever the check did. -/
theorem C7_tombstone_failure_degrades (delNet : List String → DelHttpResponse)
    (files : List (String × FileData)) :
    (∀ e, areFilesDeleted delNet (files.map (fun p => p.1)) = .error e →
      (filterDeletedTr delNet files).1 = files) ∧
    (∀ statuses, areFilesDeleted delNet (files.map (fun p => p.1)) = .ok statuses →
      (filterDeletedTr delNet files).1 =
        files.filter (fun p => !jsLookupBool statuses p.1)) ∧
    (∀ (filter : Option Filter) (ownerData minterData : AllData)
      (allFiles : List (String × FileData)),
      mergeAllFiles (filter.bind Filter.filterBy) ownerData minterData = .ok allFiles →
      (mergeAndFinish delNet filter ownerData minterData).isOk = true) := by
  refine ⟨?_, ?_, ?_⟩
  · intro e he
    unfold filterDeletedTr
    by_cases hlen : 0 < (files.map (fun p => p.1)).length
    · simp only [hlen, if_true, he]
    · have : files = [] := by
        simp only [List.length_map] at hlen
        exact List.length_eq_zero.mp (by omega)
      subst this
      simp
  · intro statuses hs
    unfold filterDeletedTr
    by_cases hlen : 0 < (files.map (fun p => p.1)).length
    · simp only [hlen, if_true, hs]
    · have : files = [] := by
        simp only [List.length_map] at hlen
        exact List.length_eq_zero.mp (by omega)
      subst this
      simp
  · intro filter ownerData minterData allFiles hmerge
    unfold mergeAndFinish
    rw [hmerge]
    cases filter.bind Filter.sortBy <;> simp [Except.isOk, Except.toBool]

theorem C7_witness :
    areFilesDeleted delNetFail (exFilesDel.map (fun p => p.1)) =
      .error "API request failed with status 500" ∧
    (filterDeletedTr delNetFail exFilesDel).1 = exFilesDel :=
  ⟨rfl, (C7_tombstone_failure_degrades delNetFail exFilesDel).1 _ rfl⟩

/-- C10: a successful existence check whose mapping omits an entry's
identifier keeps the entry; a response with no `deletedFiles` mapping at all
keeps every entry; and with an empty merged set no existence request is
issued at all (the request trace is empty). -/
theorem C10_missing_status_retained (delNet : List String → DelHttpResponse)
    (files : List (String × FileData)) :
    (∀ statuses id fd,
      areFilesDeleted delNet (files.map (fun p => p.1)) = .ok statuses →
      statuses.lookup id = none → (id, fd) ∈ files →
      (id, fd) ∈ (filterDeletedTr delNet files).1) ∧
    (respOk (delNet (files.map (fun p => p.1))).status = true →
      (delNet (files.map (fun p => p.1))).deletedFiles = none →
      (filterDeletedTr delNet files).1 = files) ∧
    filterDeletedTr delNet [] = ([], []) := by
  refine ⟨?_, ?_, rfl⟩
  · intro statuses id fd hs hlid hmem
    have hlen : 0 < (files.map (fun p => p.1)).length := by
      simp only [List.length_map]
      exact List.length_pos.mpr (List.ne_nil_of_mem hmem)
    unfold filterDeletedTr
    simp only [hlen, if_true, hs]
    refine List.mem_filter.mpr ⟨hmem, ?_⟩
    simp [jsLookupBool, hlid]
  · intro hok hnone
    have hdel : areFilesDeleted delNet (files.map (fun p => p.1)) = .ok [] := by
      simp only [areFilesDeleted]
      rw [hok, hnone]
      rfl
    unfold filterDeletedTr
    by_cases hlen : 0 < (files.map (fun p => p.1)).length
    · simp only [hlen, if_true, hdel]
      simp [jsLookupBool, List.filter_eq_self]
    · have : files = [] := by
        simp only [List.length_map] at hlen
        exact List.length_eq_zero.mp (by omega)
      subst this
      simp

theorem C10_missing_status_retained_witness :
    areFilesDeleted delNetOkEmpty (exFilesDel.map (fun p => p.1)) = .ok [] ∧
    ("ida", exFileData "ida" (some "a")) ∈ (filterDeletedTr delNetOkEmpty exFilesDel).1 :=
  ⟨rfl, (C10_missing_status_retained delNetOkEmpty exFilesDel).1 [] _ _ rfl rfl
    (by simp [exFilesDel])⟩

theorem taggedStreams_mem {ownerData minterData : AllData} {f : RawFile} {ms : Bool}
    (h : (f, ms) ∈ taggedStreams ownerData minterData) :
    f ∈ ownerData.permissionedFileDeployeds ∨
    f ∈ ownerData.permissionedFileAccessMinteds ∨
    f ∈ minterData.permissionedFileDeployeds ∨
    f ∈ minterData.permissionedFileAccessMinteds := by
  unfold taggedStreams at h
  rcases List.mem_append.mp h with h123 | h4
  · rcases List.mem_append.mp h123 with h12 | h3
    · rcases List.mem_append.mp h12 with h1 | h2
      · obtain ⟨a, ha, he⟩ := List.mem_map.mp h1
        injection he with hef hms
        subst hef
        exact Or.inl ha
      · obtain ⟨a, ha, he⟩ := List.mem_map.mp h2
        injection he with hef hms
        subst hef
        exact Or.inr (Or.inl ha)
    · obtain ⟨a, ha, he⟩ := List.mem_map.mp h3
      injection he with hef hms
      subst hef
      exact Or.inr (Or.inr (Or.inl ha))
  · obtain ⟨a, ha, he⟩ := List.mem_map.mp h4
    injection he with hef hms
    subst hef
    exact Or.inr (Or.inr (Or.inr ha))

theorem taggedStreams_true_mem {ownerData minterData : AllData} {f : RawFile}
    (h : (f, true) ∈ taggedStreams ownerData minterData) :
    f ∈ ownerData.permissionedFileAccessMinteds ∨
    f ∈ minterData.permissionedFileAccessMinteds := by
  unfold taggedStreams at h
  rcases List.mem_append.mp h with h123 | h4
  · rcases List.mem_append.mp h123 with h12 | h3
    · rcases List.mem_append.mp h12 with h1 | h2
      · obtain ⟨a, ha, he⟩ := List.mem_map.mp h1
        injection he with hef hms
        exact Bool.noConfusion hms
      · obtain ⟨a, ha, he⟩ := List.mem_map.mp h2
        injection he with hef hms
        subst hef
        exact Or.inl ha
    · obtain ⟨a, ha, he⟩ := List.mem_map.mp h3
      injection he with hef hms
      exact Bool.noConfusion hms
  · obtain ⟨a, ha, he⟩ := List.mem_map.mp h4
    injection he with hef hms
    subst hef
    exact Or.inr ha

theorem mem_accessMintedIds {ownerData minterData : AllData} {f : RawFile}
    (h : f ∈ ownerData.permissionedFileAccessMinteds ∨
      f ∈ minterData.permissionedFileAccessMinteds) :
    (accessMintedIds ownerData minterData).contains (jsToLower f.fileIdentifier) = true := by
  have hmem : jsToLower f.fileIdentifier ∈ accessMintedIds ownerData minterData := by
    unfold accessMintedIds
    rcases h with hm | hm
    · exact List.mem_append_left _ (List.mem_map.mpr ⟨f, hm, rfl⟩)
    · exact List.mem_append_right _ (List.mem_map.mpr ⟨f, hm, rfl⟩)
  exact List.elem_eq_true_of_mem hmem

/-- C8 counterexample: the minter feed carries a record whose blob does not
parse, but its identifier duplicates one already merged from the owner feed;
the call returns normally instead of throwing, and the malformed record is
silently skipped. -/
theorem C8_counterexample :
    rawBadX.fileMetadata = .error "Unexpected token" ∧
    rawBadX ∈ minterFeedC8.permissionedFileDeployeds ∧
    mergeAllFiles none ownerFeedC8 minterFeedC8 =
      .ok [("x", mkFileData [] false rawGoodX (mdNested "nx" "cidX"))] :=
  ⟨rfl, by simp [minterFeedC8], rfl⟩

/-- C8 (amended): a record whose metadata blob fails to parse makes the
whole merge throw unless its lowercased identifier was already inserted by
an earlier record; contrapositively, whenever the merge returns normally,
every unparseable record's identifier is present in the merged table
(contributed by some other record). -/
theorem C8_parse_error_propagates {filterBy : Option FilterBy}
    {ownerData minterData : AllData} {out : List (String × FileData)}
    (hmerge : mergeAllFiles filterBy ownerData minterData = .ok out)
    (f : RawFile) (ms : Bool) (e : String)
    (hmem : (f, ms) ∈ taggedStreams ownerData minterData)
    (herr : f.fileMetadata = .error e) :
    ∃ fd, out.lookup (jsToLower f.fileIdentifier) = some fd := by
  simp only [mergeAllFiles] at hmerge
  split at hmerge
  · exact absurd hmerge (by simp)
  · rename_i a1 h1
    split at hmerge
    · exact absurd hmerge (by simp)
    · rename_i a2 h2
      split at hmerge
      · exact absurd hmerge (by simp)
      · rename_i a3 h3
        rcases taggedStreams_mem hmem with hf | hf | hf | hf
        · obtain ⟨fd, hfd⟩ := processPass_error_mem _ _ _ _ _ _ _ _ h1 hf herr
          exact ⟨fd, processPass_preserves _ _ _ _ _ _ _ _ hmerge
            (processPass_preserves _ _ _ _ _ _ _ _ h3
              (processPass_preserves _ _ _ _ _ _ _ _ h2 hfd))⟩
        · obtain ⟨fd, hfd⟩ := processPass_error_mem _ _ _ _ _ _ _ _ h2 hf herr
          exact ⟨fd, processPass_preserves _ _ _ _ _ _ _ _ hmerge
            (processPass_preserves _ _ _ _ _ _ _ _ h3 hfd)⟩
        · obtain ⟨fd, hfd⟩ := processPass_error_mem _ _ _ _ _ _ _ _ h3 hf herr
          exact ⟨fd, processPass_preserves _ _ _ _ _ _ _ _ hmerge hfd⟩
        · exact processPass_error_mem _ _ _ _ _ _ _ _ hmerge hf herr

theorem C8_parse_error_propagates_witness :
    rawBadX.fileMetadata = .error "Unexpected token" ∧
    ∃ fd, List.lookup (jsToLower rawBadX.fileIdentifier)
        [("x", mkFileData [] false rawGoodX (mdNested "nx" "cidX"))] = some fd :=
  ⟨rfl, @C8_parse_error_propagates none ownerFeedC8 minterFeedC8
    [("x", mkFileData [] false rawGoodX (mdNested "nx" "cidX"))] rfl
    rawBadX false "Unexpected token"
    (by simp [taggedStreams, ownerFeedC8, minterFeedC8]) rfl⟩

/-- C6: in a successful merge, an entry's `isAccessMinted` flag is true
exactly when the entry's identifier occurs (lowercased) in the
access-minted record set of either feed, regardless of which stream
supplied the entry's other fields. -/
theorem C6_access_granted_union {filterBy : Option FilterBy}
    {ownerData minterData : AllData} {out : List (String × FileData)}
    (hmerge : mergeAllFiles filterBy ownerData minterData = .ok out)
    (id : String) (fd : FileData) (hfd : out.lookup id = some fd) :
    fd.isAccessMinted = (accessMintedIds ownerData minterData).contains id := by
  have hchar := mergeAllFiles_lookup hmerge id
  rw [hfd] at hchar
  obtain ⟨f, ms, hmem, hid, hacc⟩ :=
    specFirstAccepted_origin _ _ _ _ _ hchar.symm
  simp only [acceptedEntry] at hacc
  split at hacc
  · exact absurd hacc (by simp)
  · rename_i m heq
    split at hacc
    · split at hacc
      · cases hacc
        subst hid
        cases ms with
        | false => rfl
        | true =>
          show true = _
          exact (mem_accessMintedIds (taggedStreams_true_mem hmem)).symm
      · exact absurd hacc (by simp)
    · exact absurd hacc (by simp)

theorem C6_access_granted_union_witness :
    mergeAllFiles none ownerFeedW minterFeedMintedW =
      .ok [("w", mkFileData (accessMintedIds ownerFeedW minterFeedMintedW) false rawW1
        (mdNested "w1" "cid1"))] ∧
    (mkFileData (accessMintedIds ownerFeedW minterFeedMintedW) false rawW1
        (mdNested "w1" "cid1")).isAccessMinted =
      (accessMintedIds ownerFeedW minterFeedMintedW).contains "w" :=
  ⟨rfl, @C6_access_granted_union none ownerFeedW minterFeedMintedW
    [("w", mkFileData (accessMintedIds ownerFeedW minterFeedMintedW) false rawW1
      (mdNested "w1" "cid1"))] rfl "w" _ rfl⟩

/-- C4 (amended): in a successful merge, the entry recorded for an
identifier is exactly the one contributed by the earliest record — in the
fixed stream precedence order (owner deployed, owner access-minted, minter
deployed, minter access-minted) — whose lowercased identifier matches and
which passes the required-metadata gate AND matches the filter predicate;
all later sightings of the identifier are discarded. -/
theorem C4_first_seen_precedence {filterBy : Option FilterBy}
    {ownerData minterData : AllData} {out : List (String × FileData)}
    (hmerge : mergeAllFiles filterBy ownerData minterData = .ok out) (id : String) :
    out.lookup id =
      specFirstAccepted (accessMintedIds ownerData minterData) filterBy
        (taggedStreams ownerData minterData) id :=
  mergeAllFiles_lookup hmerge id

theorem C4_first_seen_precedence_witness :
    List.lookup "a" [("a", mkFileData [] false rawMinterA (mdNested "x" "cidMinter"))] =
      specFirstAccepted (accessMintedIds ownerFeedC4 minterFeedC4) (some fbNameX)
        (taggedStreams ownerFeedC4 minterFeedC4) "a" :=
  @C4_first_seen_precedence (some fbNameX) ownerFeedC4 minterFeedC4
    [("a", mkFileData [] false rawMinterA (mdNested "x" "cidMinter"))] rfl "a"

/-- C4 counterexample: with a name filter, the owner-deployed record for the
identifier passes the required-metadata gate but fails the filter; the
merged entry's contract address then comes from the minter-deployed stream,
not from the earliest gate-passing stream as the claim states. -/
theorem C4_counterexample :
    hasRequiredMetadata (mdNested "y" "cidOwner") = true ∧
    rawOwnerA ∈ ownerFeedC4.permissionedFileDeployeds ∧
    jsToLower rawOwnerA.fileIdentifier = "a" ∧
    mergeAllFiles (some fbNameX) ownerFeedC4 minterFeedC4 =
      .ok [("a", mkFileData [] false rawMinterA (mdNested "x" "cidMinter"))] ∧
    (mkFileData [] false rawMinterA (mdNested "x" "cidMinter")).dataContractAddress =
      "0xminterC" ∧
    rawOwnerA.fileContractAddress = "0xownerC" :=
  ⟨rfl, by simp [ownerFeedC4], rfl, rfl, rfl, rfl⟩

/-- C5: the feed fetch loop requests pages at skip offsets 0, pageSize,
2·pageSize, …, advancing by `pageSize` after every successful page, and
fetches exactly `N` pages, where `N` is determined by the first of two
stopping conditions to hold: the page whose primary record kind
(`permissionedFileDeployeds`) returns fewer than `pageSize` items is the
last page fetched, and no page is fetched once `maxPages` pages are done
(`maxPages = none` is the unbounded default).  The statement is about an
arbitrary feed oracle, hence covers the owner and the minter loop alike. -/
theorem C5_pagination_termination (net : Nat → HttpResponse) (pageSize : Nat)
    (maxPages : Option Nat) (fuel N : Nat)
    (hok : ∀ i, i < N → respOk (net i).status = true)
    (hfull : ∀ i, i + 1 < N →
      (jsOrEmpty (net i).body.permissionedFileDeployeds).length = pageSize)
    (hcont : ∀ i, i < N → ltMax i maxPages = true)
    (hstop : ltMax N maxPages = false ∨
      (0 < N ∧ (jsOrEmpty (net (N - 1)).body.permissionedFileDeployeds).length < pageSize))
    (hfuel : N + 1 ≤ fuel) :
    fetchAllPages net pageSize maxPages fuel =
      some (.ok
        { permissionedFileDeployeds := (List.range N).flatMap
            (fun i => jsOrEmpty (net i).body.permissionedFileDeployeds)
          permissionedFileAccessMinteds := (List.range N).flatMap
            (fun i => jsOrEmpty (net i).body.permissionedFileAccessMinteds) },
        (List.range N).map (fun i => i * pageSize)) := by
  have h := fetchAllPagesGo_spec net pageSize maxPages N hok hfull hcont
    (by
      rcases hstop with hs | ⟨h1, h2⟩
      · exact Or.inl hs
      · exact Or.inr ⟨h1, by omega⟩)
    fuel 0 true
    { permissionedFileDeployeds := [], permissionedFileAccessMinteds := [] }
    (by omega) (by omega) (fun _ => rfl)
    (fun h0 => by
      rcases hstop with hs | ⟨hpos, _⟩
      · rw [← h0] at hs
        rw [hs, Bool.and_false]
      · omega)
  rw [Nat.zero_mul] at h
  unfold fetchAllPages
  rw [h]
  simp [List.range_eq_range']

theorem C5_pagination_termination_witness :
    fetchAllPages pagedNet 1 none 3 =
      some (.ok
        { permissionedFileDeployeds := (List.range 2).flatMap
            (fun i => jsOrEmpty (pagedNet i).body.permissionedFileDeployeds)
          permissionedFileAccessMinteds := (List.range 2).flatMap
            (fun i => jsOrEmpty (pagedNet i).body.permissionedFileAccessMinteds) },
        (List.range 2).map (fun i => i * 1)) ∧
    fetchAllPages pagedNet 1 none 3 =
      some (.ok { permissionedFileDeployeds := [rawP0]
                  permissionedFileAccessMinteds := [] }, [0, 1]) :=
  ⟨C5_pagination_termination pagedNet 1 none 3 2
    (by
      intro i hi
      match i, hi with
      | 0, _ => rfl
      | 1, _ => rfl)
    (by
      intro i hi
      have : i = 0 := by omega
      subst this
      rfl)
    (by intro i _; rfl)
    (Or.inr ⟨by omega, by decide⟩)
    (by omega), rfl⟩

/-- C1 counterexample: sorting entries with `name` values `"b"`,
`undefined`, `"a"` ascending by `name` does NOT yield `"a", "b", undefined`
(it yields `undefined, "a", "b"`), and descending does NOT yield
`undefined, "b", "a"` (it yields `"b", "a", undefined`). -/
theorem C1_counterexample :
    sortEntries ascNameSort exEntries ≠ [exEntryA, exEntryB, exEntryU] ∧
    sortEntries descNameSort exEntries ≠ [exEntryU, exEntryB, exEntryA] ∧
    (sortEntries ascNameSort exEntries).map
      (fun p => p.2.dataMetadata.get "name") = [none, some "a", some "b"] ∧
    (sortEntries descNameSort exEntries).map
      (fun p => p.2.dataMetadata.get "name") = [some "b", some "a", none] :=
  ⟨by decide, by decide, by decide, by decide⟩

/-- C1 (amended): under a sortSpec, an entry whose sort-field value is
absent sorts to the START of the result when the direction is ascending (or
unspecified) and to the END when descending; concretely, sorting entries
with field values `"b"`, `undefined`, `"a"` ascending yields
`undefined, "a", "b"` and descending yields `"b", "a", undefined`. -/
theorem C1_sort_missing_placement (sortBy : SortBy)
    (files : List (String × FileData)) :
    (sortBy.direction ≠ some SortDirection.desc →
      (sortEntries sortBy files).Pairwise (fun x y =>
        y.2.dataMetadata.get sortBy.field = none →
        x.2.dataMetadata.get sortBy.field = none)) ∧
    (sortBy.direction = some SortDirection.desc →
      (sortEntries sortBy files).Pairwise (fun x y =>
        x.2.dataMetadata.get sortBy.field = none →
        y.2.dataMetadata.get sortBy.field = none)) ∧
    sortEntries ascNameSort exEntries = [exEntryU, exEntryA, exEntryB] ∧
    sortEntries descNameSort exEntries = [exEntryB, exEntryA, exEntryU] := by
  refine ⟨?_, ?_, by decide, by decide⟩
  · intro hd
    refine (sortEntries_sorted sortBy files).imp ?_
    intro a b hle hbnone
    simp only [entryLE, decide_eq_true_eq] at hle
    rcases ha : a.2.dataMetadata.get sortBy.field with _ | v
    · rfl
    · exfalso
      unfold sortComparator at hle
      simp only [ha, hbnone, if_neg hd] at hle
      omega
  · intro hd
    refine (sortEntries_sorted sortBy files).imp ?_
    intro a b hle hanone
    simp only [entryLE, decide_eq_true_eq] at hle
    rcases hb : b.2.dataMetadata.get sortBy.field with _ | v
    · rfl
    · exfalso
      unfold sortComparator at hle
      simp only [hanone, hb, if_pos hd] at hle
      omega

theorem C1_sort_missing_placement_witness :
    (sortEntries ascNameSort exEntries).Pairwise (fun x y =>
      y.2.dataMetadata.get ascNameSort.field = none →
      x.2.dataMetadata.get ascNameSort.field = none) ∧
    (sortEntries descNameSort exEntries).Pairwise (fun x y =>
      x.2.dataMetadata.get descNameSort.field = none →
      y.2.dataMetadata.get descNameSort.field = none) :=
  ⟨(C1_sort_missing_placement ascNameSort exEntries).1 (by decide),
   (C1_sort_missing_placement descNameSort exEntries).2.1 (by decide)⟩

end KeypoList
